import Mathlib

/-!
Verification of the covariance aggregate of
`src/common/functions/src/aggregates/aggregate_covariance.rs`.

Modelling conventions:
* `f64` values are modelled exactly over `ℚ` (the claims under study concern
  the algebraic form and the order of the updates, not IEEE rounding);
  `0.001_f64` is modelled by the literal `1/1000`.
* `u64` counters are `ℕ`, reduced modulo `2^64` wherever the Rust code can
  wrap (`count += 1`, `self.count + other.count`).
* The wire format (`serialize`/`deserialize`) moves 64-bit fields verbatim,
  so for it the three `f64` fields are modelled by their 64-bit patterns.
-/

namespace Covariance

def U64_MOD : ℕ := 2 ^ 64

/-- The covariance accumulator `AggregateCovarianceState`:
`count: u64`, `co_moments: f64`, `left_mean: f64`, `right_mean: f64`. -/
structure AggregateCovarianceState where
  count : ℕ
  co_moments : ℚ
  left_mean : ℚ
  right_mean : ℚ
deriving DecidableEq, Repr

/-- `AggregateCovarianceState::add` (lines 54-65): the single-observation
online update. `count += 1` is `u64` addition, hence the `% U64_MOD`. -/
def AggregateCovarianceState.add (st : AggregateCovarianceState) (s t : ℚ) :
    AggregateCovarianceState :=
  let left_delta := s - st.left_mean
  let right_delta := t - st.right_mean
  let count := (st.count + 1) % U64_MOD
  let new_left_mean := st.left_mean + left_delta / (count : ℚ)
  let new_right_mean := st.right_mean + right_delta / (count : ℚ)
  { count := count
    co_moments := st.co_moments + (s - new_left_mean) * (t - st.right_mean)
    left_mean := new_left_mean
    right_mean := new_right_mean }

/-- `large_and_comparable` (lines 106-117). -/
def large_and_comparable (a b : ℕ) : Bool :=
  if a = 0 ∨ b = 0 then
    false
  else
    let sensitivity : ℚ := 1 / 1000
    let threshold : ℚ := 10000
    let mn : ℚ := (min a b : ℕ)
    let mx : ℚ := (max a b : ℕ)
    decide (1 - mn / mx < sensitivity ∧ mn > threshold)

/-- `AggregateCovarianceState::left_sum` (lines 96-98). -/
def AggregateCovarianceState.left_sum (st : AggregateCovarianceState) : ℚ :=
  (st.count : ℚ) * st.left_mean

/-- `AggregateCovarianceState::right_sum` (lines 101-103). -/
def AggregateCovarianceState.right_sum (st : AggregateCovarianceState) : ℚ :=
  (st.count : ℚ) * st.right_mean

/-- `AggregateCovarianceState::merge` (lines 72-93): combines `other` into
`st`.  `total` is the `u64` sum of the two counts, hence the `% U64_MOD`. -/
def AggregateCovarianceState.merge (st other : AggregateCovarianceState) :
    AggregateCovarianceState :=
  let total := (st.count + other.count) % U64_MOD
  if total = 0 then st
  else
    let factor := (st.count : ℚ) * (other.count : ℚ) / (total : ℚ)
    let left_delta := st.left_mean - other.left_mean
    let right_delta := st.right_mean - other.right_mean
    let co_moments :=
      st.co_moments + (other.co_moments + left_delta * right_delta * factor)
    if large_and_comparable st.count other.count then
      { count := total
        co_moments := co_moments
        left_mean := (st.left_sum + other.left_sum) / (total : ℚ)
        right_mean := (st.right_sum + other.right_sum) / (total : ℚ) }
    else
      { count := total
        co_moments := co_moments
        left_mean := other.left_mean + left_delta * (st.count : ℚ) / (total : ℚ)
        right_mean := other.right_mean + right_delta * (st.count : ℚ) / (total : ℚ) }

/-- `init_state` (lines 146-153): the freshly initialized, zero-valued state. -/
def initState : AggregateCovarianceState :=
  { count := 0, left_mean := 0, right_mean := 0, co_moments := 0 }

/-- An `f64` result: either positive infinity (the sentinel the code uses for
degenerate sample sizes) or a finite value modelled exactly in `ℚ`. -/
inductive F64 where
  | inf : F64
  | val : ℚ → F64
deriving DecidableEq, Repr

/-- `DataValue::Float64(Option<f64>)`, the only constructor `merge_result`
produces. -/
inductive DataValue where
  | Float64 : Option F64 → DataValue
deriving DecidableEq, Repr

/-- `common_exception::ErrorCode` as far as this file needs it. -/
inductive ErrorCode where
  | error : String → ErrorCode
deriving DecidableEq, Repr

/-- `AggregateCovarianceSampleImpl::apply` (lines 324-330). -/
def sampleApply (st : AggregateCovarianceState) : Option F64 :=
  if st.count < 2 then some .inf
  else some (.val (st.co_moments / ((st.count - 1 : ℕ) : ℚ)))

/-- `AggregateCovariancePopulationImpl::apply` (lines 350-358). -/
def populationApply (st : AggregateCovarianceState) : Option F64 :=
  if st.count = 0 then some .inf
  else if st.count = 1 then some (.val 0)
  else some (.val (st.co_moments / (st.count : ℚ)))

/-- `merge_result` (lines 253-259), generic over the variant's `R::apply`. -/
def mergeResult (apply : AggregateCovarianceState → Option F64)
    (st : AggregateCovarianceState) : Except ErrorCode DataValue :=
  match apply st with
  | some v => .ok (.Float64 (some v))
  | none => .ok (.Float64 none)

/-- `merge_result` of the sample variant. -/
def mergeResultSample : AggregateCovarianceState → Except ErrorCode DataValue :=
  mergeResult sampleApply

/-- `merge_result` of the population variant. -/
def mergeResultPopulation : AggregateCovarianceState → Except ErrorCode DataValue :=
  mergeResult populationApply

/-- `null_count()` of a column modelled as a list of optional values. -/
def nullCount (col : List (Option ℚ)) : ℕ :=
  col.countP (fun x => x.isNone)

/-- `accumulate` (lines 159-186), specialised to the state update it performs
on the two input columns.  Branch 1: one column is entirely null — do
nothing.  Branch 2: no nulls at all — fold `add` over the zipped
`into_no_null_iter` values.  Branch 3: mixed — fold over the zipped optional
values, calling `add` only when both sides are present. -/
def accumulate (st : AggregateCovarianceState)
    (left right : List (Option ℚ)) : AggregateCovarianceState :=
  if nullCount left = left.length ∨ nullCount right = right.length then st
  else if nullCount left = 0 ∧ nullCount right = 0 then
    ((left.filterMap id).zip (right.filterMap id)).foldl
      (fun s p => s.add p.1 p.2) st
  else
    (left.zip right).foldl
      (fun s p =>
        match p with
        | (some a, some b) => s.add a b
        | _ => s) st

/-- The rows of a zipped batch where both the left and the right value are
present, in row order. -/
def presentPairs (left right : List (Option ℚ)) : List (ℚ × ℚ) :=
  (left.zip right).filterMap
    (fun p => p.1.bind (fun a => p.2.map (fun b => (a, b))))

/-!
Wire-format model.  `serialize`/`deserialize` move the four fields verbatim
as 8-byte little-endian words, so here the three `f64` fields are modelled
by their 64-bit patterns (naturals below `2^64`).
-/

/-- The state as its four 64-bit field patterns, for the wire format. -/
structure AggregateCovarianceStateBits where
  count : ℕ
  co_moments : ℕ
  left_mean : ℕ
  right_mean : ℕ
deriving DecidableEq, Repr

/-- `n` little-endian base-256 digits of `x`. -/
def leBytes : ℕ → ℕ → List ℕ
  | 0, _ => []
  | n + 1, x => x % 256 :: leBytes n (x / 256)

/-- The natural denoted by a little-endian byte list. -/
def fromLEBytes : List ℕ → ℕ
  | [] => 0
  | b :: rest => b + 256 * fromLEBytes rest

/-- Modelled from the spec: `common_io`'s `serialize_to_buf` for `u64` and
`f64` (the `common_io` crate is not under `src/`) appends the value to the
writer as 8 fixed-width little-endian bytes, no padding. -/
def serializeScalarToBuf (x : ℕ) (writer : List ℕ) : List ℕ :=
  writer ++ leBytes 8 x

/-- A decoding failure (truncated input). -/
inductive DecodeError where
  | truncated : DecodeError
deriving DecidableEq, Repr

/-- Modelled from the spec: `u64::deserialize`/`f64::deserialize` from
`common_io` (not under `src/`) consume exactly 8 little-endian bytes from the
reader and advance it, rejecting truncated input with a decoding error. -/
def deserializeScalar (reader : List ℕ) : Except DecodeError (ℕ × List ℕ) :=
  if 8 ≤ reader.length then .ok (fromLEBytes (reader.take 8), reader.drop 8)
  else .error .truncated

/-- `serialize` (lines 228-235): `count`, `co_moments`, `left_mean`,
`right_mean` written to the buffer in that order. -/
def serialize (st : AggregateCovarianceStateBits) (writer : List ℕ) : List ℕ :=
  serializeScalarToBuf st.right_mean
    (serializeScalarToBuf st.left_mean
      (serializeScalarToBuf st.co_moments
        (serializeScalarToBuf st.count writer)))

/-- `deserialize` (lines 237-244): each field is assigned in place as soon as
it is decoded, and the first failing read propagates via `?`, leaving the
fields assigned so far in the state.  Returns the updated state together with
the remaining reader on success. -/
def deserialize (st : AggregateCovarianceStateBits) (reader : List ℕ) :
    AggregateCovarianceStateBits × Except DecodeError (List ℕ) :=
  match deserializeScalar reader with
  | .error e => (st, .error e)
  | .ok (c, reader) =>
    let st := { st with count := c }
    match deserializeScalar reader with
    | .error e => (st, .error e)
    | .ok (m, reader) =>
      let st := { st with co_moments := m }
      match deserializeScalar reader with
      | .error e => (st, .error e)
      | .ok (l, reader) =>
        let st := { st with left_mean := l }
        match deserializeScalar reader with
        | .error e => (st, .error e)
        | .ok (r, reader) => ({ st with right_mean := r }, .ok reader)

/-- The single-observation update exactly as the spec's pseudocode writes it
(spec §4.3, `add(s, t)`): deltas from the old means, `count += 1`, the two
new means, the co-moment bumped with the *old* right mean, and only then both
means stored. -/
def addSpec (st : AggregateCovarianceState) (s t : ℚ) :
    AggregateCovarianceState :=
  let left_delta := s - st.left_mean
  let right_delta := t - st.right_mean
  let count := st.count + 1
  let new_left_mean := st.left_mean + left_delta / (count : ℚ)
  let new_right_mean := st.right_mean + right_delta / (count : ℚ)
  { count := count
    co_moments := st.co_moments + (s - new_left_mean) * (t - st.right_mean)
    left_mean := new_left_mean
    right_mean := new_right_mean }

/-!  Theorems for the claims.  -/

/-- C2: for every state and input pair `(s, t)`,
`AggregateCovarianceState::add` performs exactly the spec's
single-observation update: deltas from the old means, `count += 1`, the new
means via `delta / count`, the co-moment bumped by
`(s - new_left_mean) * (t - right_mean)` with the right mean from BEFORE the
update, and only then both means stored.  (The hypothesis rules out the
`u64` counter wrapping, which the spec's pseudocode does not model.) -/
theorem add_eq_addSpec (st : AggregateCovarianceState) (s t : ℚ)
    (h : st.count + 1 < U64_MOD) : st.add s t = addSpec st s t := by
  simp [AggregateCovarianceState.add, addSpec, Nat.mod_eq_of_lt h]

/-- Witness for `add_eq_addSpec` at a concrete state and input. -/
theorem add_eq_addSpec_witness :
    (AggregateCovarianceState.mk 0 0 0 0).add 1 2 =
      addSpec (AggregateCovarianceState.mk 0 0 0 0) 1 2 :=
  add_eq_addSpec (AggregateCovarianceState.mk 0 0 0 0) 1 2 (by decide)

/-- C4: the sample-covariance finalization returns `+∞` whenever
`count < 2`, returns `co_moments / (count - 1)` otherwise, and in every case
returns a non-null `Float64` wrapped in `Ok` — never null, never an error. -/
theorem mergeResultSample_spec (st : AggregateCovarianceState) :
    (st.count < 2 → mergeResultSample st = .ok (.Float64 (some .inf)))
    ∧ (2 ≤ st.count → mergeResultSample st =
        .ok (.Float64 (some (.val (st.co_moments / ((st.count - 1 : ℕ) : ℚ))))))
    ∧ ∃ v, mergeResultSample st = .ok (.Float64 (some v)) := by
  unfold mergeResultSample mergeResult sampleApply
  by_cases h : st.count < 2 <;> simp [h]

/-- Witness for `mergeResultSample_spec` at counts 0, 1 and 3. -/
theorem mergeResultSample_spec_witness :
    mergeResultSample (AggregateCovarianceState.mk 0 0 0 0) =
      .ok (.Float64 (some .inf))
    ∧ mergeResultSample (AggregateCovarianceState.mk 1 3 0 0) =
      .ok (.Float64 (some .inf))
    ∧ mergeResultSample (AggregateCovarianceState.mk 3 5 0 0) =
      .ok (.Float64 (some (.val (5 / ((3 - 1 : ℕ) : ℚ))))) :=
  ⟨(mergeResultSample_spec (AggregateCovarianceState.mk 0 0 0 0)).1 (by decide),
   (mergeResultSample_spec (AggregateCovarianceState.mk 1 3 0 0)).1 (by decide),
   (mergeResultSample_spec (AggregateCovarianceState.mk 3 5 0 0)).2.1 (by decide)⟩

/-- C5: the population-covariance finalization returns `+∞` when
`count = 0`, `0.0` when `count = 1`, and `co_moments / count` otherwise. -/
theorem mergeResultPopulation_spec (st : AggregateCovarianceState) :
    (st.count = 0 → mergeResultPopulation st = .ok (.Float64 (some .inf)))
    ∧ (st.count = 1 → mergeResultPopulation st = .ok (.Float64 (some (.val 0))))
    ∧ (2 ≤ st.count → mergeResultPopulation st =
        .ok (.Float64 (some (.val (st.co_moments / (st.count : ℚ)))))) := by
  unfold mergeResultPopulation mergeResult populationApply
  refine ⟨fun h => by simp [h], fun h => by simp [h], fun h => ?_⟩
  have h0 : st.count ≠ 0 := by omega
  have h1 : st.count ≠ 1 := by omega
  simp [h0, h1]

/-- Witness for `mergeResultPopulation_spec` at counts 0, 1 and 4. -/
theorem mergeResultPopulation_spec_witness :
    mergeResultPopulation (AggregateCovarianceState.mk 0 0 0 0) =
      .ok (.Float64 (some .inf))
    ∧ mergeResultPopulation (AggregateCovarianceState.mk 1 7 0 0) =
      .ok (.Float64 (some (.val 0)))
    ∧ mergeResultPopulation (AggregateCovarianceState.mk 4 6 0 0) =
      .ok (.Float64 (some (.val (6 / (4 : ℚ))))) :=
  ⟨(mergeResultPopulation_spec (AggregateCovarianceState.mk 0 0 0 0)).1 rfl,
   (mergeResultPopulation_spec (AggregateCovarianceState.mk 1 7 0 0)).2.1 rfl,
   by
    have h := (mergeResultPopulation_spec (AggregateCovarianceState.mk 4 6 0 0)).2.2
      (by decide)
    simpa using h⟩

/-- C9: `large_and_comparable(a, b)` is true iff both counts exceed 10000
and `1 - min(a,b)/max(a,b) < 0.001`, for all pairs of counts, the zero cases
included (the explicit zero guard is subsumed by `10000 < a ∧ 10000 < b`). -/
theorem large_and_comparable_spec (a b : ℕ) :
    large_and_comparable a b = true ↔
      10000 < a ∧ 10000 < b ∧
        1 - ((min a b : ℕ) : ℚ) / ((max a b : ℕ) : ℚ) < 1 / 1000 := by
  unfold large_and_comparable
  by_cases h : a = 0 ∨ b = 0
  · simp only [h, if_true, Bool.false_eq_true, false_iff]
    rintro ⟨ha, hb, -⟩
    rcases h with h | h <;> omega
  · simp only [h, if_false, decide_eq_true_eq]
    have hmin : ((10000 : ℚ) < ((min a b : ℕ) : ℚ)) ↔ (10000 < a ∧ 10000 < b) := by
      rw [show ((10000 : ℚ) = ((10000 : ℕ) : ℚ)) by norm_num, Nat.cast_lt,
        lt_min_iff]
    constructor
    · rintro ⟨hlt, hgt⟩
      exact ⟨(hmin.mp hgt).1, (hmin.mp hgt).2, hlt⟩
    · rintro ⟨ha, hb, hlt⟩
      exact ⟨hlt, hmin.mpr ⟨ha, hb⟩⟩

/-- C1, counterexample: take `self = {count 1, co 0, left_mean 0, right_mean 3}`
and `other = {count 1, co 0, left_mean 0, right_mean 0}`.  Then
`large_and_comparable` is false and `total = 2 > 0`, yet the merged
`right_mean` is `3/2` (the code's `other.right_mean + right_delta *
self.count / total`), not the claim's `other.right_mean + right_delta *
right_delta / total = 9/2`. -/
theorem merge_right_mean_counterexample :
    large_and_comparable 1 1 = false
    ∧ ((AggregateCovarianceState.mk 1 0 0 3).merge
        (AggregateCovarianceState.mk 1 0 0 0)).right_mean = 3 / 2
    ∧ (0 : ℚ) + (3 - 0) * (3 - 0) / 2 = 9 / 2
    ∧ (3 / 2 : ℚ) ≠ 9 / 2 := by
  refine ⟨by norm_num [large_and_comparable], ?_, by norm_num, by norm_num⟩
  norm_num [AggregateCovarianceState.merge, large_and_comparable, U64_MOD,
    AggregateCovarianceState.left_sum, AggregateCovarianceState.right_sum]

/-- C1, amended: in `AggregateCovarianceState::merge`, when
`large_and_comparable(self.count, other.count)` is false and
`total = self.count + other.count > 0`, the means are updated incrementally:
`left_mean` becomes `other.left_mean + left_delta * self.count / total` and
`right_mean` becomes `other.right_mean + right_delta * self.count / total`
(with `left_delta = self.left_mean - other.left_mean` and
`right_delta = self.right_mean - other.right_mean`). -/
theorem merge_incremental_means (st other : AggregateCovarianceState)
    (hmod : st.count + other.count < U64_MOD)
    (hpos : 0 < st.count + other.count)
    (hlc : large_and_comparable st.count other.count = false) :
    (st.merge other).left_mean =
      other.left_mean + (st.left_mean - other.left_mean) * (st.count : ℚ) /
        ((st.count : ℚ) + (other.count : ℚ))
    ∧ (st.merge other).right_mean =
      other.right_mean + (st.right_mean - other.right_mean) * (st.count : ℚ) /
        ((st.count : ℚ) + (other.count : ℚ)) := by
  unfold AggregateCovarianceState.merge
  rw [Nat.mod_eq_of_lt hmod]
  have h0 : ¬(st.count + other.count = 0) := by omega
  simp only [h0, if_false, hlc, Bool.false_eq_true]
  push_cast
  exact ⟨rfl, rfl⟩

/-- Witness for `merge_incremental_means` at two concrete singleton states. -/
theorem merge_incremental_means_witness :
    ((AggregateCovarianceState.mk 1 0 0 3).merge
        (AggregateCovarianceState.mk 1 0 0 0)).left_mean =
      0 + (0 - 0) * ((1 : ℕ) : ℚ) / (((1 : ℕ) : ℚ) + ((1 : ℕ) : ℚ))
    ∧ ((AggregateCovarianceState.mk 1 0 0 3).merge
        (AggregateCovarianceState.mk 1 0 0 0)).right_mean =
      0 + (3 - 0) * ((1 : ℕ) : ℚ) / (((1 : ℕ) : ℚ) + ((1 : ℕ) : ℚ)) :=
  merge_incremental_means (AggregateCovarianceState.mk 1 0 0 3)
    (AggregateCovarianceState.mk 1 0 0 0) (by decide) (by decide)
    (by norm_num [large_and_comparable])

/-- C3: merging a freshly initialized zero-count state into any state `X`
leaves all four fields of `X` unchanged, `merge(X, empty) == X`.  (The
hypothesis is the `u64` range invariant on the count field.) -/
theorem merge_initState (X : AggregateCovarianceState)
    (h : X.count < U64_MOD) : X.merge initState = X := by
  obtain ⟨c, co, lm, rm⟩ := X
  unfold AggregateCovarianceState.merge initState
  simp only at h ⊢
  by_cases h0 : c = 0
  · simp [h0]
  · have hmod : (c + 0) % U64_MOD = c := by
      rw [Nat.add_zero]; exact Nat.mod_eq_of_lt h
    have hlc : large_and_comparable c 0 = false := by
      simp [large_and_comparable]
    have hc : (c : ℚ) ≠ 0 := Nat.cast_ne_zero.mpr h0
    simp only [hmod, h0, if_false, hlc, Bool.false_eq_true,
      AggregateCovarianceState.mk.injEq]
    refine ⟨by trivial, ?_, ?_, ?_⟩ <;> push_cast <;> field_simp

/-- Witness for `merge_initState` at a concrete two-row state. -/
theorem merge_initState_witness :
    (AggregateCovarianceState.mk 2 5 3 4).merge initState =
      AggregateCovarianceState.mk 2 5 3 4 :=
  merge_initState (AggregateCovarianceState.mk 2 5 3 4)
    (by norm_num [U64_MOD])

/-! Wire-format lemmas. -/

theorem leBytes_length (n x : ℕ) : (leBytes n x).length = n := by
  induction n generalizing x with
  | zero => rfl
  | succ n ih => simp [leBytes, ih]

theorem fromLEBytes_leBytes (n x : ℕ) (h : x < 256 ^ n) :
    fromLEBytes (leBytes n x) = x := by
  induction n generalizing x with
  | zero => interval_cases x; rfl
  | succ n ih =>
    have hdiv : x / 256 < 256 ^ n := by
      rw [Nat.div_lt_iff_lt_mul (by norm_num)]
      calc x < 256 ^ (n + 1) := h
        _ = 256 ^ n * 256 := by ring
    simp [leBytes, fromLEBytes, ih _ hdiv, Nat.mod_add_div]

theorem deserializeScalar_len8_append (l rest : List ℕ) (hlen : l.length = 8) :
    deserializeScalar (l ++ rest) = .ok (fromLEBytes l, rest) := by
  unfold deserializeScalar
  rw [if_pos (by simp [hlen])]
  rw [← hlen]
  simp

theorem deserializeScalar_leBytes_append (x : ℕ) (rest : List ℕ)
    (hx : x < 256 ^ 8) :
    deserializeScalar (leBytes 8 x ++ rest) = .ok (x, rest) := by
  rw [deserializeScalar_len8_append _ _ (leBytes_length 8 x),
    fromLEBytes_leBytes 8 x hx]

theorem deserializeScalar_leBytes (x : ℕ) (hx : x < 256 ^ 8) :
    deserializeScalar (leBytes 8 x) = .ok (x, []) := by
  have h := deserializeScalar_leBytes_append x [] hx
  simpa using h

theorem deserializeScalar_short (reader : List ℕ) (h : reader.length < 8) :
    deserializeScalar reader = .error .truncated := by
  unfold deserializeScalar
  rw [if_neg (by omega)]

theorem deserializeScalar_long (reader : List ℕ) (h : 8 ≤ reader.length) :
    deserializeScalar reader =
      .ok (fromLEBytes (reader.take 8), reader.drop 8) := by
  unfold deserializeScalar
  rw [if_pos h]

/-- C7: deserializing the bytes produced by `serialize` restores every one of
the four fields bit-for-bit, whatever state the destination held before, and
consumes the whole buffer.  (The hypotheses are the 64-bit range invariants
of the four fields.) -/
theorem deserialize_serialize (st st' : AggregateCovarianceStateBits)
    (h1 : st.count < U64_MOD) (h2 : st.co_moments < U64_MOD)
    (h3 : st.left_mean < U64_MOD) (h4 : st.right_mean < U64_MOD) :
    deserialize st' (serialize st []) = (st, .ok []) := by
  obtain ⟨c, co, lm, rm⟩ := st
  obtain ⟨c', co', lm', rm'⟩ := st'
  have hmod : (256 : ℕ) ^ 8 = U64_MOD := by norm_num [U64_MOD]
  rw [← hmod] at h1 h2 h3 h4
  simp only at h1 h2 h3 h4
  unfold serialize serializeScalarToBuf
  simp only [List.nil_append, List.append_assoc]
  unfold deserialize
  simp only [deserializeScalar_leBytes_append _ _ h1]
  simp only [deserializeScalar_leBytes_append _ _ h2]
  simp only [deserializeScalar_leBytes_append _ _ h3]
  simp only [deserializeScalar_leBytes rm h4]

/-- Witness for `deserialize_serialize` with `count = 1000000`. -/
theorem deserialize_serialize_witness :
    deserialize (AggregateCovarianceStateBits.mk 3 3 3 3)
        (serialize (AggregateCovarianceStateBits.mk 1000000 5 7 9) []) =
      (AggregateCovarianceStateBits.mk 1000000 5 7 9, .ok []) :=
  deserialize_serialize (AggregateCovarianceStateBits.mk 1000000 5 7 9)
    (AggregateCovarianceStateBits.mk 3 3 3 3)
    (by norm_num [U64_MOD]) (by norm_num [U64_MOD])
    (by norm_num [U64_MOD]) (by norm_num [U64_MOD])

/-- C8: `serialize` writes exactly, in order, `count` then `co_moments` then
`left_mean` then `right_mean`, each as 8 fixed-width little-endian bytes, 32
bytes total with no padding; and `deserialize` on any input shorter than 32
bytes returns a decoding error rather than succeeding. -/
theorem serialize_wire_format (st st' : AggregateCovarianceStateBits)
    (reader : List ℕ) :
    serialize st [] =
      leBytes 8 st.count ++ leBytes 8 st.co_moments ++
        leBytes 8 st.left_mean ++ leBytes 8 st.right_mean
    ∧ (serialize st []).length = 32
    ∧ (reader.length < 32 → (deserialize st' reader).2 = .error .truncated) := by
  refine ⟨?_, ?_, ?_⟩
  · simp [serialize, serializeScalarToBuf]
  · simp [serialize, serializeScalarToBuf, leBytes_length]
  · intro hlen
    unfold deserialize
    by_cases c1 : reader.length < 8
    · simp only [deserializeScalar_short reader c1]
    · simp only [deserializeScalar_long reader (by omega)]
      have l1 : (reader.drop 8).length = reader.length - 8 := by simp
      by_cases c2 : (reader.drop 8).length < 8
      · simp only [deserializeScalar_short (reader.drop 8) c2]
      · simp only [deserializeScalar_long (reader.drop 8) (by omega)]
        have l2 : ((reader.drop 8).drop 8).length = reader.length - 16 := by
          simp
        by_cases c3 : ((reader.drop 8).drop 8).length < 8
        · simp only [deserializeScalar_short ((reader.drop 8).drop 8) c3]
        · simp only [deserializeScalar_long ((reader.drop 8).drop 8) (by omega)]
          have l3 : (((reader.drop 8).drop 8).drop 8).length < 8 := by
            simp
            omega
          simp only [deserializeScalar_short (((reader.drop 8).drop 8).drop 8) l3]

/-- Witness for `serialize_wire_format` on a 20-byte truncated input. -/
theorem serialize_wire_format_witness :
    serialize (AggregateCovarianceStateBits.mk 2 5 7 9) [] =
      leBytes 8 2 ++ leBytes 8 5 ++ leBytes 8 7 ++ leBytes 8 9
    ∧ (serialize (AggregateCovarianceStateBits.mk 2 5 7 9) []).length = 32
    ∧ (deserialize (AggregateCovarianceStateBits.mk 0 0 0 0)
        (List.replicate 20 1)).2 = .error .truncated := by
  obtain ⟨e1, e2, e3⟩ := serialize_wire_format
    (AggregateCovarianceStateBits.mk 2 5 7 9)
    (AggregateCovarianceStateBits.mk 0 0 0 0) (List.replicate 20 1)
  exact ⟨e1, e2, e3 (by simp)⟩

/-- C10: `deserialize` is not atomic on failure.  On a buffer holding at
least the first field but fewer than 16 bytes, the call returns a decoding
error, yet `count` has already been overwritten with the decoded value while
the three remaining fields keep their pre-call values. -/
theorem deserialize_partial_overwrite (st : AggregateCovarianceStateBits)
    (reader : List ℕ) (h8 : 8 ≤ reader.length) (h16 : reader.length < 16) :
    (deserialize st reader).1.count = fromLEBytes (reader.take 8)
    ∧ (deserialize st reader).1.co_moments = st.co_moments
    ∧ (deserialize st reader).1.left_mean = st.left_mean
    ∧ (deserialize st reader).1.right_mean = st.right_mean
    ∧ (deserialize st reader).2 = .error .truncated := by
  have hs1 := deserializeScalar_long reader h8
  have hs2 : deserializeScalar (reader.drop 8) = .error .truncated := by
    apply deserializeScalar_short
    simp
    omega
  unfold deserialize
  simp only [hs1, hs2]
  refine ⟨?_, ?_, ?_, ?_, ?_⟩ <;> trivial

/-- Witness for `deserialize_partial_overwrite`: ten bytes decode `count`
to 42, the other fields keep their old value 7, and the call errors. -/
theorem deserialize_partial_overwrite_witness :
    (deserialize (AggregateCovarianceStateBits.mk 7 7 7 7)
        [42, 0, 0, 0, 0, 0, 0, 0, 1, 2]).1.count = 42
    ∧ (deserialize (AggregateCovarianceStateBits.mk 7 7 7 7)
        [42, 0, 0, 0, 0, 0, 0, 0, 1, 2]).1.co_moments = 7
    ∧ (deserialize (AggregateCovarianceStateBits.mk 7 7 7 7)
        [42, 0, 0, 0, 0, 0, 0, 0, 1, 2]).1.left_mean = 7
    ∧ (deserialize (AggregateCovarianceStateBits.mk 7 7 7 7)
        [42, 0, 0, 0, 0, 0, 0, 0, 1, 2]).1.right_mean = 7
    ∧ (deserialize (AggregateCovarianceStateBits.mk 7 7 7 7)
        [42, 0, 0, 0, 0, 0, 0, 0, 1, 2]).2 = .error .truncated := by
  obtain ⟨h1, h2, h3, h4, h5⟩ := deserialize_partial_overwrite
    (AggregateCovarianceStateBits.mk 7 7 7 7)
    [42, 0, 0, 0, 0, 0, 0, 0, 1, 2] (by decide) (by decide)
  exact ⟨h1.trans (by decide), h2, h3, h4, h5⟩

/-! Null-handling lemmas for `accumulate`. -/

theorem foldl_match_eq_foldl_filterMap
    (l : List (Option ℚ × Option ℚ)) (st : AggregateCovarianceState) :
    l.foldl
      (fun s p =>
        match p with
        | (some a, some b) => s.add a b
        | _ => s) st =
      (l.filterMap (fun p => p.1.bind (fun a => p.2.map (fun b => (a, b))))).foldl
        (fun s p => s.add p.1 p.2) st := by
  induction l generalizing st with
  | nil => rfl
  | cons p l ih =>
    rcases p with ⟨_ | a, _ | b⟩ <;>
      simp [List.foldl_cons, List.filterMap_cons, ih]

theorem presentPairs_eq_nil (l r : List (Option ℚ))
    (h : ∀ p ∈ l.zip r, p.1 = none ∨ p.2 = none) : presentPairs l r = [] := by
  unfold presentPairs
  rw [List.filterMap_eq_nil_iff]
  intro p hp
  rcases h p hp with h1 | h1 <;> simp [h1]

theorem zip_filterMap_id_eq_presentPairs :
    ∀ (l r : List (Option ℚ)), (∀ x ∈ l, x ≠ none) → (∀ x ∈ r, x ≠ none) →
      (l.filterMap id).zip (r.filterMap id) = presentPairs l r
  | [], r, _, _ => by simp [presentPairs]
  | x :: l, [], _, _ => by simp [presentPairs]
  | x :: l, y :: r, hl, hr => by
    obtain ⟨a, rfl⟩ := Option.ne_none_iff_exists'.mp (hl x (List.mem_cons_self x l))
    obtain ⟨b, rfl⟩ := Option.ne_none_iff_exists'.mp (hr y (List.mem_cons_self y r))
    have ih := zip_filterMap_id_eq_presentPairs l r
      (fun z hz => hl z (List.mem_cons_of_mem _ hz))
      (fun z hz => hr z (List.mem_cons_of_mem _ hz))
    simp only [presentPairs] at ih ⊢
    simp [List.filterMap_cons, ih]

/-- C6: `accumulate` invokes `add` exactly for the rows where both the left
and the right value are present, in row order; in particular a batch in which
every row has a null left value or a null right value leaves the state
unchanged. -/
theorem accumulate_present_rows (st : AggregateCovarianceState)
    (l r : List (Option ℚ)) :
    accumulate st l r =
      (presentPairs l r).foldl (fun s p => s.add p.1 p.2) st
    ∧ ((∀ p ∈ l.zip r, p.1 = none ∨ p.2 = none) → accumulate st l r = st) := by
  have main : accumulate st l r =
      (presentPairs l r).foldl (fun s p => s.add p.1 p.2) st := by
    unfold accumulate
    by_cases hall : nullCount l = l.length ∨ nullCount r = r.length
    · rw [if_pos hall]
      have hnil : presentPairs l r = [] := by
        apply presentPairs_eq_nil
        intro p hp
        obtain ⟨hp1, hp2⟩ := List.of_mem_zip hp
        rcases hall with h | h
        · exact Or.inl (Option.isNone_iff_eq_none.mp
            (List.countP_eq_length.mp h p.1 hp1))
        · exact Or.inr (Option.isNone_iff_eq_none.mp
            (List.countP_eq_length.mp h p.2 hp2))
      rw [hnil]
      rfl
    · rw [if_neg hall]
      by_cases hnone : nullCount l = 0 ∧ nullCount r = 0
      · rw [if_pos hnone]
        rw [zip_filterMap_id_eq_presentPairs l r
          (fun x hx h0 => List.countP_eq_zero.mp hnone.1 x hx
            (by simp [h0, Option.isNone]))
          (fun x hx h0 => List.countP_eq_zero.mp hnone.2 x hx
            (by simp [h0, Option.isNone]))]
      · rw [if_neg hnone]
        exact foldl_match_eq_foldl_filterMap (l.zip r) st
  refine ⟨main, fun h => ?_⟩
  rw [main, presentPairs_eq_nil l r h]
  rfl

/-- Witness for `accumulate_present_rows` on a 3-row batch with mixed nulls,
and an all-null-row corollary instance. -/
theorem accumulate_present_rows_witness :
    accumulate (AggregateCovarianceState.mk 0 0 0 0)
        [some 1, none, some 3] [some 2, some 5, some 4] =
      (presentPairs [some 1, none, some 3] [some 2, some 5, some 4]).foldl
        (fun s p => s.add p.1 p.2) (AggregateCovarianceState.mk 0 0 0 0)
    ∧ accumulate (AggregateCovarianceState.mk 0 0 0 0)
        [some 1, none] [none, some 5] = AggregateCovarianceState.mk 0 0 0 0 :=
  ⟨(accumulate_present_rows (AggregateCovarianceState.mk 0 0 0 0)
      [some 1, none, some 3] [some 2, some 5, some 4]).1,
   (accumulate_present_rows (AggregateCovarianceState.mk 0 0 0 0)
      [some 1, none] [none, some 5]).2 (by decide)⟩

end Covariance
